import Mathlib

/-!
Shallow embedding of the simulated-annealing engine of `src/index.ts`
(`runSimulatedAnnealing`) and of the caller-supplied strategy fixtures of
`src/index.test.ts` (`generateRandomNumber`, `generateUniqueRandomNumbers`,
`generateNewState`, `copyState`).

Modelling conventions:
* JavaScript `number` is modelled by `ℝ` (costs, temperatures, random draws);
  the random-draw fixtures of the test file work on integer ranges and are
  modelled over `ℤ`/`ℚ` so that they stay executable.
* The two sources of randomness (`Math.random()` inside the acceptance test,
  and the randomness consumed inside `generateNewState`) are modelled as
  oracles passed to the engine: `rand : ℕ → ℝ` gives the uniform draw used by
  the acceptance comparison of inner step `k`, and the caller-supplied
  neighbour generator is step-indexed, `generateNewState : ℕ → α → α`, so that
  its internal randomness at step `k` is captured by the index.
* The `while (currentTemperature > minimumTemperature)` loop is modelled in
  two ways: a fuel-indexed function `outerLoopFuel` that is a literal
  translation of the loop, and the iteration count `outerCount` (the least
  number of cooling steps that drives the temperature to or below the
  minimum).  `runSimulatedAnnealing` runs the fuel-indexed loop with
  `outerCount` fuel; the lemmas below show the fuel-indexed loop never stops
  before `outerCount` iterations and (under the termination hypotheses) is
  unchanged by any larger fuel, so this is exactly the while loop on every
  terminating configuration.
* A structural deep copy in a value semantics is extensionally the identity;
  `copyState` is nevertheless kept as an explicit caller-supplied function and
  theorems that rely on its contract take the hypothesis
  `copyState initialState = initialState`.
-/

/-- The `SimulatedAnnealingOptions` record of `src/index.ts`.
`swapsPerTemperature` is used only as the bound of `for (let i = 0; i <
swapsPerTemperature; i += 1)`, so it is modelled as the loop count `ℕ`. -/
structure SimulatedAnnealingOptions where
  coolingFactor : ℝ
  initialTemperature : ℝ
  minimumTemperature : ℝ
  swapsPerTemperature : ℕ

/-- The default values of `SimulatedAnnealingOptions` destructured at the top
of `runSimulatedAnnealing`. -/
noncomputable def defaultOptions : SimulatedAnnealingOptions :=
  { coolingFactor := 0.99
    initialTemperature := 1
    minimumTemperature := 0.00001
    swapsPerTemperature := 10 }

/-- The `SimulatedAnnealingArgs<T>` record of `src/index.ts`.  The neighbour
generator is step-indexed to expose the randomness it consumes (the source
function `generateNewState : (state: T) => T` is random). -/
structure SimulatedAnnealingArgs (α : Type) where
  copyState : α → α
  generateNewState : ℕ → α → α
  getCost : α → ℝ
  initialState : α
  options : SimulatedAnnealingOptions

/-- The four mutable locals of `runSimulatedAnnealing` other than the
temperature: `currentState`, `currentCost`, `bestState`, `bestCost`. -/
structure RunState (α : Type) where
  currentState : α
  currentCost : ℝ
  bestState : α
  bestCost : ℝ

/-- The initialisation block of `runSimulatedAnnealing`:
`currentState = copyState(initialState)`, `currentCost = getCost(initialState)`,
`bestState = copyState(initialState)`, `bestCost = getCost(initialState)`. -/
def initRS {α : Type} (A : SimulatedAnnealingArgs α) : RunState α :=
  { currentState := A.copyState A.initialState
    currentCost := A.getCost A.initialState
    bestState := A.copyState A.initialState
    bestCost := A.getCost A.initialState }

/-- The acceptance condition of the inner loop:
`changeInCost < 0 || Math.exp(-changeInCost / currentTemperature) > Math.random()`
where `changeInCost = neighborCost - currentCost` and `u` is the value
returned by `Math.random()`. -/
def accepts (neighborCost currentCost temp u : ℝ) : Prop :=
  neighborCost - currentCost < 0 ∨
    Real.exp ((-(neighborCost - currentCost)) / temp) > u

open Classical in
/-- One iteration of the inner `for` loop of `runSimulatedAnnealing`: generate
a neighbour, compute its cost, accept it as current state by the Metropolis
criterion, and independently record it as best state when it strictly improves
on `bestCost`. -/
noncomputable def innerStep {α : Type} (getCost : α → ℝ) (temp : ℝ) (gk : α → α)
    (u : ℝ) (s : RunState α) : RunState α :=
  let neighborState := gk s.currentState
  let neighborCost := getCost neighborState
  let s1 := if accepts neighborCost s.currentCost temp u
    then { s with currentState := neighborState, currentCost := neighborCost }
    else s
  if neighborCost < s.bestCost
    then { s1 with bestState := neighborState, bestCost := neighborCost }
    else s1

/-- The inner `for (let i = 0; i < swapsPerTemperature; i += 1)` loop:
`innerLoop A rand temp k0 cnt s` performs `cnt` inner steps, the global inner
step counter starting at `k0` (the counter indexes the randomness oracles). -/
noncomputable def innerLoop {α : Type} (A : SimulatedAnnealingArgs α)
    (rand : ℕ → ℝ) (temp : ℝ) : ℕ → ℕ → RunState α → RunState α
  | _, 0, s => s
  | k0, cnt + 1, s =>
      innerLoop A rand temp (k0 + 1) cnt
        (innerStep A.getCost temp (A.generateNewState k0) (rand k0) s)

/-- The temperature thread of the outer loop: `tempAt cfg n` is the value of
`currentTemperature` at the start of outer iteration `n`, obtained from
`currentTemperature = initialTemperature` by `n` executions of
`currentTemperature *= coolingFactor`. -/
noncomputable def tempAt (cfg : SimulatedAnnealingOptions) : ℕ → ℝ
  | 0 => cfg.initialTemperature
  | n + 1 => tempAt cfg n * cfg.coolingFactor

/-- The run state after `n` full iterations of the outer loop body (without
the `while` guard); iteration `n` runs the inner loop at temperature
`tempAt cfg n` on global inner-step indices `n * swapsPerTemperature`
onwards. -/
noncomputable def outerIter {α : Type} (A : SimulatedAnnealingArgs α)
    (rand : ℕ → ℝ) : ℕ → RunState α
  | 0 => initRS A
  | n + 1 =>
      innerLoop A rand (tempAt A.options n) (n * A.options.swapsPerTemperature)
        A.options.swapsPerTemperature (outerIter A rand n)

open Classical in
/-- Fuel-indexed translation of the `while (currentTemperature >
minimumTemperature)` loop of `runSimulatedAnnealing`.  `n` is the index of the
outer iteration about to run (it positions the randomness oracles), `temp` is
`currentTemperature`, and the loop stops early exactly when the `while` guard
fails. -/
noncomputable def outerLoopFuel {α : Type} (A : SimulatedAnnealingArgs α)
    (rand : ℕ → ℝ) : ℕ → ℕ → RunState α → ℝ → RunState α
  | 0, _, s, _ => s
  | fuel + 1, n, s, temp =>
      if temp > A.options.minimumTemperature then
        outerLoopFuel A rand fuel (n + 1)
          (innerLoop A rand temp (n * A.options.swapsPerTemperature)
            A.options.swapsPerTemperature s)
          (temp * A.options.coolingFactor)
      else s

open Classical in
/-- Fuel-indexed count of the iterations executed by the `while` loop started
at temperature `temp`; it mirrors `outerLoopFuel` but records only how many
times the guard succeeded.  It depends only on the three temperature
parameters, not on the state or the strategy functions. -/
noncomputable def whileIters (cfg : SimulatedAnnealingOptions) : ℕ → ℝ → ℕ
  | 0, _ => 0
  | fuel + 1, temp =>
      if temp > cfg.minimumTemperature then
        whileIters cfg fuel (temp * cfg.coolingFactor) + 1
      else 0

/-- The number of outer iterations the `while` loop performs: the least `n`
with `tempAt cfg n ≤ minimumTemperature` (and `0` when no such `n` exists,
in which case the source loop diverges and no claim applies). -/
noncomputable def outerCount (cfg : SimulatedAnnealingOptions) : ℕ :=
  sInf {n : ℕ | tempAt cfg n ≤ cfg.minimumTemperature}

/-- `runSimulatedAnnealing` of `src/index.ts`: run the annealing loop and
return `bestState`.  The fuel `outerCount A.options` is exactly the number of
iterations of the source `while` loop (see `outerLoopFuel_stable`). -/
noncomputable def runSimulatedAnnealing {α : Type} (A : SimulatedAnnealingArgs α)
    (rand : ℕ → ℝ) : α :=
  (outerLoopFuel A rand (outerCount A.options) 0 (initRS A)
    A.options.initialTemperature).bestState

/-- The run state at the boundary after `k` executed inner-loop iterations
(`traceRS A rand 0` is the state right after initialisation).  Inner step `k`
belongs to outer iteration `k / swapsPerTemperature` and therefore runs at
temperature `tempAt cfg (k / swapsPerTemperature)`. -/
noncomputable def traceRS {α : Type} (A : SimulatedAnnealingArgs α)
    (rand : ℕ → ℝ) : ℕ → RunState α
  | 0 => initRS A
  | k + 1 =>
      innerStep A.getCost (tempAt A.options (k / A.options.swapsPerTemperature))
        (A.generateNewState k) (rand k) (traceRS A rand k)

/-- The neighbour state generated at inner step `k` of the run. -/
noncomputable def neighborAt {α : Type} (A : SimulatedAnnealingArgs α)
    (rand : ℕ → ℝ) (k : ℕ) : α :=
  A.generateNewState k ((traceRS A rand k).currentState)

/-- The minimum of `getCost initialState` and the costs of the first `k`
generated neighbour states — the lowest cost observed after `k` inner
iterations. -/
noncomputable def observedMin {α : Type} (A : SimulatedAnnealingArgs α)
    (rand : ℕ → ℝ) : ℕ → ℝ
  | 0 => A.getCost A.initialState
  | k + 1 => min (A.getCost (neighborAt A rand k)) (observedMin A rand k)

/-- The sequence of states whose costs the engine evaluates: the initial state
(stored as the entry copy) followed by the generated neighbours. -/
noncomputable def evalSeq {α : Type} (A : SimulatedAnnealingArgs α)
    (rand : ℕ → ℝ) : ℕ → α
  | 0 => A.copyState A.initialState
  | k + 1 => neighborAt A rand k

/-- The cost the engine records for the corresponding entry of `evalSeq`:
`getCost initialState` for index `0`, `getCost (neighborAt k)` for `k + 1`. -/
noncomputable def costSeq {α : Type} (A : SimulatedAnnealingArgs α)
    (rand : ℕ → ℝ) : ℕ → ℝ
  | 0 => A.getCost A.initialState
  | k + 1 => A.getCost (neighborAt A rand k)

/-!
Caller-supplied strategy fixtures of `src/index.test.ts`.  They operate on the
state type `number[][]`, modelled as `List (List ℚ)` (the test data are
integers; `ℚ` keeps the fixtures executable).  Random draws consumed by the
fixtures are rationals in `[0, 1)` supplied by a stream `us : ℕ → ℚ`; the
`while` loop inside `generateUniqueRandomNumbers` is modelled with explicit
fuel, returning `none` when the loop has not exited within the fuel — so
"`none` for every fuel" renders non-termination of the source loop.
-/

namespace TestFixture

/-- `generateRandomNumber` of `src/index.test.ts`:
`Math.floor(Math.random() * (max - min + 1)) + min`, with `u` the value
returned by `Math.random()`. -/
def generateRandomNumber (lo hi : ℤ) (u : ℚ) : ℤ :=
  ⌊u * ((hi : ℚ) - (lo : ℚ) + 1)⌋ + lo

/-- The `while (randomGroupOne === randomGroupTwo)` loop of
`generateUniqueRandomNumbers`: repeatedly redraw `randomGroupTwo` until it
differs from `r1`.  `i` is the index of the next unconsumed draw of the
stream; the result pairs the successful draw with the next stream index. -/
def genUniqueAux (lo hi : ℤ) (us : ℕ → ℚ) (r1 : ℤ) : ℕ → ℕ → Option (ℤ × ℕ)
  | 0, _ => none
  | fuel + 1, i =>
      let r2 := generateRandomNumber lo hi (us i)
      if r2 = r1 then genUniqueAux lo hi us r1 fuel (i + 1) else some (r2, i + 1)

/-- `generateUniqueRandomNumbers` of `src/index.test.ts`: draw `r1`, then loop
drawing `r2` until it differs from `r1`.  Returns the pair together with the
index of the next unconsumed draw, or `none` when the inner loop has not
terminated within `fuel` redraws. -/
def generateUniqueRandomNumbers (lo hi : ℤ) (us : ℕ → ℚ) (fuel : ℕ) :
    Option ((ℤ × ℤ) × ℕ) :=
  let r1 := generateRandomNumber lo hi (us 0)
  match genUniqueAux lo hi us r1 fuel 1 with
  | none => none
  | some (r2, i) => some ((r1, r2), i)

/-- `copyState` of `src/index.test.ts`: a deep copy of the nested arrays
(each inner array rebuilt with `[...group]`), which at the level of values is
the identity map carried out element by element. -/
def copyState (state : List (List ℚ)) : List (List ℚ) :=
  state.map (fun group => group.map (fun x => x))

/-- `generateNewState` of `src/index.test.ts`: return the groups unchanged if
there are none; otherwise draw two distinct group indices, one element index
in each (uniform over the first group's size, as in the source), and swap the
two elements on a copy.  Out-of-range accesses (possible in the source when
group sizes differ or are zero, where JavaScript yields `undefined`) are
modelled by `getD`/`set` defaults; the claims touching this function do not
depend on that corner.  `none` models non-termination of the index-drawing
loop. -/
def generateNewState (us : ℕ → ℚ) (fuel : ℕ) (groups : List (List ℚ)) :
    Option (List (List ℚ)) :=
  let numGroups := groups.length
  if numGroups = 0 then some groups
  else
    match generateUniqueRandomNumbers 0 ((numGroups : ℤ) - 1) us fuel with
    | none => none
    | some ((g1, g2), i) =>
        let groupSize := (groups.headD []).length
        let i1 := generateRandomNumber 0 ((groupSize : ℤ) - 1) (us i)
        let i2 := generateRandomNumber 0 ((groupSize : ℤ) - 1) (us (i + 1))
        let result := copyState groups
        let v1 := (result.getD g1.toNat []).getD i1.toNat 0
        let v2 := (result.getD g2.toNat []).getD i2.toNat 0
        let result1 := result.set g1.toNat ((result.getD g1.toNat []).set i1.toNat v2)
        let result2 := result1.set g2.toNat ((result1.getD g2.toNat []).set i2.toNat v1)
        some result2

/-- The single-group degenerate input: `generateUniqueRandomNumbers(0, 0)`
can only ever draw `0`, so its redraw loop never exits.  This proposition
renders "`generateNewState` never returns on the state `[[1]]`" (all draws of
the stream being `0`, a legitimate `Math.random()` trajectory): no amount of
fuel makes the modelled loop exit. -/
def singleGroupHangs : Prop :=
  ∀ fuel : ℕ, generateNewState (fun _ => 0) fuel [[1]] = none

end TestFixture

/-- The claim that at some inner-loop iteration boundary of some execution
`bestCost` exceeds `currentCost` (the first half of claim C2, rendered over
the boundary trace `traceRS`). -/
def boundaryBestGtCurrent : Prop :=
  ∃ (α : Type) (A : SimulatedAnnealingArgs α) (rand : ℕ → ℝ) (k : ℕ),
    (traceRS A rand k).currentCost < (traceRS A rand k).bestCost

/-- A concrete argument bundle over `Bool` used by the witness theorems:
identity copy, constant neighbour generator, constant cost, and a cooling
schedule `1, 1/2, 1/4 ≤ 1/4` that performs exactly two outer iterations of two
swaps each. -/
noncomputable def demoArgs : SimulatedAnnealingArgs Bool :=
  { copyState := fun s => s
    generateNewState := fun _ s => s
    getCost := fun _ => 0
    initialState := false
    options :=
      { coolingFactor := 1 / 2
        initialTemperature := 1
        minimumTemperature := 1 / 4
        swapsPerTemperature := 2 } }

/-- A concrete acceptance-draw oracle for the witness theorems. -/
noncomputable def demoRand : ℕ → ℝ := fun _ => 1

/-- A concrete run state over `Bool` used by the witness of the acceptance
criterion. -/
noncomputable def demoRunState : RunState Bool :=
  { currentState := false, currentCost := 0, bestState := false, bestCost := 0 }

/-- A concrete cost function over `Bool` (the flipped state improves the
cost) used by the witness of the acceptance criterion. -/
noncomputable def demoCost : Bool → ℝ := fun b => if b then -1 else 0

/-- The best-tracking branch of an inner step: the recorded best cost becomes
the minimum of the neighbour's cost and the previous best cost. -/
theorem innerStep_bestCost {α : Type} (getCost : α → ℝ) (temp u : ℝ) (gk : α → α)
    (s : RunState α) :
    (innerStep getCost temp gk u s).bestCost =
      min (getCost (gk s.currentState)) s.bestCost := by
  unfold innerStep
  by_cases hb : getCost (gk s.currentState) < s.bestCost
  · by_cases ha : accepts (getCost (gk s.currentState)) s.currentCost temp u <;>
      simp [hb, ha, min_eq_left hb.le]
  · by_cases ha : accepts (getCost (gk s.currentState)) s.currentCost temp u <;>
      simp [hb, ha, min_eq_right (not_lt.mp hb)]

/-- When the neighbour strictly improves on the best cost, it is recorded as
the best state. -/
theorem innerStep_bestState_of_lt {α : Type} (getCost : α → ℝ) (temp u : ℝ)
    (gk : α → α) (s : RunState α)
    (hb : getCost (gk s.currentState) < s.bestCost) :
    (innerStep getCost temp gk u s).bestState = gk s.currentState := by
  unfold innerStep
  by_cases ha : accepts (getCost (gk s.currentState)) s.currentCost temp u <;>
    simp [hb, ha]

/-- When the neighbour does not strictly improve on the best cost (ties
included), the best state is untouched. -/
theorem innerStep_bestState_of_ge {α : Type} (getCost : α → ℝ) (temp u : ℝ)
    (gk : α → α) (s : RunState α)
    (hb : ¬ getCost (gk s.currentState) < s.bestCost) :
    (innerStep getCost temp gk u s).bestState = s.bestState := by
  unfold innerStep
  by_cases ha : accepts (getCost (gk s.currentState)) s.currentCost temp u <;>
    simp [hb, ha]

/-- When the Metropolis criterion accepts, the neighbour becomes the current
state and its cost the current cost. -/
theorem innerStep_current_of_accept {α : Type} (getCost : α → ℝ) (temp u : ℝ)
    (gk : α → α) (s : RunState α)
    (ha : accepts (getCost (gk s.currentState)) s.currentCost temp u) :
    (innerStep getCost temp gk u s).currentState = gk s.currentState ∧
      (innerStep getCost temp gk u s).currentCost = getCost (gk s.currentState) := by
  unfold innerStep
  by_cases hb : getCost (gk s.currentState) < s.bestCost <;> simp [hb, ha]

/-- When the Metropolis criterion rejects, the current state and current cost
are untouched. -/
theorem innerStep_current_of_reject {α : Type} (getCost : α → ℝ) (temp u : ℝ)
    (gk : α → α) (s : RunState α)
    (ha : ¬ accepts (getCost (gk s.currentState)) s.currentCost temp u) :
    (innerStep getCost temp gk u s).currentState = s.currentState ∧
      (innerStep getCost temp gk u s).currentCost = s.currentCost := by
  unfold innerStep
  by_cases hb : getCost (gk s.currentState) < s.bestCost <;> simp [hb, ha]

/-- Unfolding lemma: the boundary trace advances by one inner step. -/
theorem traceRS_succ {α : Type} (A : SimulatedAnnealingArgs α) (rand : ℕ → ℝ)
    (k : ℕ) :
    traceRS A rand (k + 1) =
      innerStep A.getCost (tempAt A.options (k / A.options.swapsPerTemperature))
        (A.generateNewState k) (rand k) (traceRS A rand k) := rfl

/-- After inner step `k`, the recorded best cost is the minimum of the
freshly generated neighbour's cost and the previous best cost. -/
theorem trace_bestCost_succ {α : Type} (A : SimulatedAnnealingArgs α)
    (rand : ℕ → ℝ) (k : ℕ) :
    (traceRS A rand (k + 1)).bestCost =
      min (A.getCost (neighborAt A rand k)) ((traceRS A rand k).bestCost) := by
  rw [traceRS_succ, innerStep_bestCost]; rfl

/-- At every iteration boundary the recorded best cost is exactly the lowest
cost observed so far (initial state included). -/
theorem trace_bestCost_eq_observedMin {α : Type} (A : SimulatedAnnealingArgs α)
    (rand : ℕ → ℝ) : ∀ k, (traceRS A rand k).bestCost = observedMin A rand k
  | 0 => rfl
  | k + 1 => by
      rw [trace_bestCost_succ, trace_bestCost_eq_observedMin A rand k]
      rfl

/-- The observed minimum is non-increasing in the number of steps. -/
theorem observedMin_antitone {α : Type} (A : SimulatedAnnealingArgs α)
    (rand : ℕ → ℝ) {k l : ℕ} (h : k ≤ l) :
    observedMin A rand l ≤ observedMin A rand k := by
  induction h with
  | refl => exact le_rfl
  | step _ ih => exact (min_le_right _ _).trans ih

/-- The observed minimum after `k` steps is dominated by every recorded cost
with index at most `k`. -/
theorem observedMin_le_costSeq {α : Type} (A : SimulatedAnnealingArgs α)
    (rand : ℕ → ℝ) : ∀ k i, i ≤ k → observedMin A rand k ≤ costSeq A rand i
  | 0, i, hi => by
      have : i = 0 := Nat.le_zero.mp hi
      subst this; exact le_rfl
  | k + 1, i, hi => by
      by_cases h : i = k + 1
      · subst h; exact min_le_left _ _
      · have hik : i ≤ k := Nat.lt_succ_iff.mp (lt_of_le_of_ne hi h)
        exact (min_le_right _ _).trans (observedMin_le_costSeq A rand k i hik)

/-- At every inner-loop iteration boundary, `bestCost ≤ currentCost`: the
current cost is always the recorded cost of some evaluated state, and the best
cost is the minimum of all of them. -/
theorem trace_bestCost_le_currentCost {α : Type} (A : SimulatedAnnealingArgs α)
    (rand : ℕ → ℝ) :
    ∀ k, (traceRS A rand k).bestCost ≤ (traceRS A rand k).currentCost
  | 0 => le_rfl
  | k + 1 => by
      rw [traceRS_succ]
      by_cases ha : accepts
          (A.getCost (A.generateNewState k ((traceRS A rand k).currentState)))
          ((traceRS A rand k).currentCost)
          (tempAt A.options (k / A.options.swapsPerTemperature)) (rand k)
      · rw [(innerStep_current_of_accept _ _ _ _ _ ha).2, innerStep_bestCost]
        exact min_le_left _ _
      · rw [(innerStep_current_of_reject _ _ _ _ _ ha).2, innerStep_bestCost]
        exact (min_le_right _ _).trans (trace_bestCost_le_currentCost A rand k)

/-- Under the copy contract on the initial state, the state recorded in
`bestState` always has exactly the recorded `bestCost`. -/
theorem trace_getCost_bestState {α : Type} (A : SimulatedAnnealingArgs α)
    (rand : ℕ → ℝ) (hcopy : A.copyState A.initialState = A.initialState) :
    ∀ k, A.getCost ((traceRS A rand k).bestState) = (traceRS A rand k).bestCost
  | 0 => by
      show A.getCost (A.copyState A.initialState) = A.getCost A.initialState
      rw [hcopy]
  | k + 1 => by
      rw [traceRS_succ]
      by_cases hb : A.getCost (A.generateNewState k ((traceRS A rand k).currentState)) <
          (traceRS A rand k).bestCost
      · rw [innerStep_bestState_of_lt _ _ _ _ _ hb, innerStep_bestCost,
          min_eq_left hb.le]
      · rw [innerStep_bestState_of_ge _ _ _ _ _ hb, innerStep_bestCost,
          min_eq_right (not_lt.mp hb)]
        exact trace_getCost_bestState A rand hcopy k

/-- The recorded best state is always the earliest evaluated state achieving
the recorded best cost: every evaluated state with a strictly smaller index
has a strictly larger recorded cost. -/
theorem trace_best_earliest {α : Type} (A : SimulatedAnnealingArgs α)
    (rand : ℕ → ℝ) :
    ∀ k, ∃ j, j ≤ k ∧ (traceRS A rand k).bestState = evalSeq A rand j ∧
      (traceRS A rand k).bestCost = costSeq A rand j ∧
      ∀ i, i < j → costSeq A rand j < costSeq A rand i
  | 0 => ⟨0, le_rfl, rfl, rfl, fun i hi => absurd hi (Nat.not_lt_zero i)⟩
  | k + 1 => by
      obtain ⟨j, hj, hbs, hbc, hmin⟩ := trace_best_earliest A rand k
      by_cases hb : A.getCost (A.generateNewState k ((traceRS A rand k).currentState)) <
          (traceRS A rand k).bestCost
      · refine ⟨k + 1, le_rfl, ?_, ?_, ?_⟩
        · rw [traceRS_succ, innerStep_bestState_of_lt _ _ _ _ _ hb]; rfl
        · rw [traceRS_succ, innerStep_bestCost, min_eq_left hb.le]; rfl
        · intro i hi
          have hik : i ≤ k := Nat.lt_succ_iff.mp hi
          have h1 : observedMin A rand k ≤ costSeq A rand i :=
            observedMin_le_costSeq A rand k i hik
          have h2 : costSeq A rand (k + 1) < observedMin A rand k := by
            rw [← trace_bestCost_eq_observedMin]; exact hb
          exact h2.trans_le h1
      · refine ⟨j, hj.trans (Nat.le_succ k), ?_, ?_, hmin⟩
        · rw [traceRS_succ, innerStep_bestState_of_ge _ _ _ _ _ hb]; exact hbs
        · rw [traceRS_succ, innerStep_bestCost, min_eq_right (not_lt.mp hb)]
          exact hbc

/-- Unfolding lemma for one pass of the inner loop. -/
theorem innerLoop_succ {α : Type} (A : SimulatedAnnealingArgs α) (rand : ℕ → ℝ)
    (temp : ℝ) (k0 cnt : ℕ) (s : RunState α) :
    innerLoop A rand temp k0 (cnt + 1) s =
      innerLoop A rand temp (k0 + 1) cnt
        (innerStep A.getCost temp (A.generateNewState k0) (rand k0) s) := rfl

/-- Unfolding lemma for one test of the while guard. -/
theorem outerLoopFuel_succ {α : Type} (A : SimulatedAnnealingArgs α)
    (rand : ℕ → ℝ) (fuel n : ℕ) (s : RunState α) (temp : ℝ) :
    outerLoopFuel A rand (fuel + 1) n s temp =
      if temp > A.options.minimumTemperature then
        outerLoopFuel A rand fuel (n + 1)
          (innerLoop A rand temp (n * A.options.swapsPerTemperature)
            A.options.swapsPerTemperature s)
          (temp * A.options.coolingFactor)
      else s := rfl

/-- Running the inner loop from position `i` of outer iteration `n` on the
matching boundary state lands on the boundary state after that outer
iteration. -/
theorem innerLoop_traceRS {α : Type} (A : SimulatedAnnealingArgs α)
    (rand : ℕ → ℝ) (n : ℕ) :
    ∀ cnt i, i + cnt = A.options.swapsPerTemperature →
      innerLoop A rand (tempAt A.options n)
        (n * A.options.swapsPerTemperature + i) cnt
        (traceRS A rand (n * A.options.swapsPerTemperature + i)) =
      traceRS A rand
        (n * A.options.swapsPerTemperature + A.options.swapsPerTemperature)
  | 0, i, hi => by
      rw [Nat.add_zero] at hi
      subst hi
      rfl
  | cnt + 1, i, hi => by
      have hswaps : i < A.options.swapsPerTemperature := by omega
      have hpos : 0 < A.options.swapsPerTemperature := by omega
      have hdiv : (n * A.options.swapsPerTemperature + i) /
          A.options.swapsPerTemperature = n := by
        rw [Nat.mul_comm, Nat.mul_add_div hpos, Nat.div_eq_of_lt hswaps,
          Nat.add_zero]
      have hstep : innerStep A.getCost (tempAt A.options n)
          (A.generateNewState (n * A.options.swapsPerTemperature + i))
          (rand (n * A.options.swapsPerTemperature + i))
          (traceRS A rand (n * A.options.swapsPerTemperature + i)) =
          traceRS A rand (n * A.options.swapsPerTemperature + i + 1) := by
        rw [traceRS_succ, hdiv]
      rw [innerLoop_succ, hstep,
        show n * A.options.swapsPerTemperature + i + 1 =
          n * A.options.swapsPerTemperature + (i + 1) by omega]
      exact innerLoop_traceRS A rand n cnt (i + 1) (by omega)

/-- After `n` outer-loop bodies the run state is the boundary state after
`n * swapsPerTemperature` inner iterations: each outer iteration performs
exactly `swapsPerTemperature` inner steps. -/
theorem outerIter_traceRS {α : Type} (A : SimulatedAnnealingArgs α)
    (rand : ℕ → ℝ) :
    ∀ n, outerIter A rand n = traceRS A rand (n * A.options.swapsPerTemperature)
  | 0 => by rw [Nat.zero_mul]; rfl
  | n + 1 => by
      rw [show outerIter A rand (n + 1) =
        innerLoop A rand (tempAt A.options n)
          (n * A.options.swapsPerTemperature) A.options.swapsPerTemperature
          (outerIter A rand n) from rfl,
        outerIter_traceRS A rand n]
      have h := innerLoop_traceRS A rand n A.options.swapsPerTemperature 0
        (Nat.zero_add _)
      rw [Nat.add_zero] at h
      rw [h, Nat.succ_mul]

/-- Before `outerCount` iterations the while guard always succeeds. -/
theorem lt_tempAt_of_lt_outerCount (cfg : SimulatedAnnealingOptions) (m : ℕ)
    (hm : m < outerCount cfg) : cfg.minimumTemperature < tempAt cfg m := by
  have h := Nat.not_mem_of_lt_sInf hm
  simp only [Set.mem_setOf_eq] at h
  exact not_le.mp h

/-- As long as the guard keeps succeeding, the fuel-indexed while loop
performs one full outer body per unit of fuel. -/
theorem outerLoopFuel_eq_outerIter {α : Type} (A : SimulatedAnnealingArgs α)
    (rand : ℕ → ℝ) :
    ∀ fuel j,
      (∀ m, j ≤ m → m < j + fuel →
        A.options.minimumTemperature < tempAt A.options m) →
      outerLoopFuel A rand fuel j (outerIter A rand j) (tempAt A.options j) =
        outerIter A rand (j + fuel)
  | 0, j, _ => rfl
  | fuel + 1, j, h => by
      have hj : A.options.minimumTemperature < tempAt A.options j :=
        h j le_rfl (by omega)
      rw [outerLoopFuel_succ, if_pos hj,
        show innerLoop A rand (tempAt A.options j)
            (j * A.options.swapsPerTemperature) A.options.swapsPerTemperature
            (outerIter A rand j) = outerIter A rand (j + 1) from rfl,
        show tempAt A.options j * A.options.coolingFactor =
          tempAt A.options (j + 1) from rfl,
        outerLoopFuel_eq_outerIter A rand fuel (j + 1)
          (fun m hm1 hm2 => h m (by omega) (by omega)),
        show j + 1 + fuel = j + (fuel + 1) by omega]

/-- `runSimulatedAnnealing` returns the best state at the boundary reached
after `outerCount * swapsPerTemperature` inner iterations. -/
theorem runSimulatedAnnealing_eq_trace {α : Type} (A : SimulatedAnnealingArgs α)
    (rand : ℕ → ℝ) :
    runSimulatedAnnealing A rand =
      (traceRS A rand
        (outerCount A.options * A.options.swapsPerTemperature)).bestState := by
  unfold runSimulatedAnnealing
  rw [show initRS A = outerIter A rand 0 from rfl,
    show A.options.initialTemperature = tempAt A.options 0 from rfl,
    outerLoopFuel_eq_outerIter A rand (outerCount A.options) 0
      (fun m hm1 hm2 =>
        lt_tempAt_of_lt_outerCount A.options m (by omega)),
    Nat.zero_add, outerIter_traceRS]

/-- Closed form of the cooling schedule:
`tempAt cfg n = initialTemperature * coolingFactor ^ n`. -/
theorem tempAt_eq_pow (cfg : SimulatedAnnealingOptions) :
    ∀ n, tempAt cfg n = cfg.initialTemperature * cfg.coolingFactor ^ n
  | 0 => by rw [pow_zero, mul_one]; rfl
  | n + 1 => by
      rw [show tempAt cfg (n + 1) = tempAt cfg n * cfg.coolingFactor from rfl,
        tempAt_eq_pow cfg n, pow_succ, mul_assoc]

/-- The temperature stays positive when it starts positive and the cooling
factor is positive. -/
theorem tempAt_pos (cfg : SimulatedAnnealingOptions)
    (h1 : 0 < cfg.coolingFactor) (h3 : 0 < cfg.initialTemperature) :
    ∀ n, 0 < tempAt cfg n
  | 0 => h3
  | n + 1 => mul_pos (tempAt_pos cfg h1 h3 n) h1

/-- The guard comparison rewritten through logarithms: the temperature after
`n` cooling steps has fallen to or below the minimum exactly when `n` is at
least `log(minimumTemperature/initialTemperature) / log(coolingFactor)`. -/
theorem tempAt_le_iff (cfg : SimulatedAnnealingOptions)
    (h1 : 0 < cfg.coolingFactor) (h2 : cfg.coolingFactor < 1)
    (h3 : 0 < cfg.minimumTemperature)
    (h4 : cfg.minimumTemperature < cfg.initialTemperature) (n : ℕ) :
    tempAt cfg n ≤ cfg.minimumTemperature ↔
      Real.log (cfg.minimumTemperature / cfg.initialTemperature) /
        Real.log cfg.coolingFactor ≤ (n : ℝ) := by
  have hT0 : 0 < cfg.initialTemperature := h3.trans h4
  have hlogcf : Real.log cfg.coolingFactor < 0 := Real.log_neg h1 h2
  have hratio : 0 < cfg.minimumTemperature / cfg.initialTemperature :=
    div_pos h3 hT0
  have step1 : tempAt cfg n ≤ cfg.minimumTemperature ↔
      cfg.coolingFactor ^ n ≤ cfg.minimumTemperature / cfg.initialTemperature := by
    rw [tempAt_eq_pow, le_div_iff₀ hT0,
      mul_comm (cfg.coolingFactor ^ n) cfg.initialTemperature]
  have step2 : cfg.coolingFactor ^ n ≤
      cfg.minimumTemperature / cfg.initialTemperature ↔
      (n : ℝ) * Real.log cfg.coolingFactor ≤
        Real.log (cfg.minimumTemperature / cfg.initialTemperature) := by
    rw [← Real.log_le_log_iff (pow_pos h1 n) hratio, Real.log_pow]
  exact step1.trans (step2.trans (div_le_iff_of_neg hlogcf).symm)

/-- The number of outer iterations is the ceiling formula
`⌈log(minimumTemperature/initialTemperature) / log(coolingFactor)⌉`. -/
theorem outerCount_eq_ceil (cfg : SimulatedAnnealingOptions)
    (h1 : 0 < cfg.coolingFactor) (h2 : cfg.coolingFactor < 1)
    (h3 : 0 < cfg.minimumTemperature)
    (h4 : cfg.minimumTemperature < cfg.initialTemperature) :
    outerCount cfg =
      (⌈Real.log (cfg.minimumTemperature / cfg.initialTemperature) /
        Real.log cfg.coolingFactor⌉).toNat := by
  have hT0 : 0 < cfg.initialTemperature := h3.trans h4
  have hlogcf : Real.log cfg.coolingFactor < 0 := Real.log_neg h1 h2
  have hratio_pos : 0 < cfg.minimumTemperature / cfg.initialTemperature :=
    div_pos h3 hT0
  have hratio_lt1 : cfg.minimumTemperature / cfg.initialTemperature < 1 :=
    (div_lt_one hT0).mpr h4
  have hlogratio :
      Real.log (cfg.minimumTemperature / cfg.initialTemperature) < 0 :=
    Real.log_neg hratio_pos hratio_lt1
  have hxpos : 0 < Real.log (cfg.minimumTemperature / cfg.initialTemperature) /
      Real.log cfg.coolingFactor :=
    div_pos_iff.mpr (Or.inr ⟨hlogratio, hlogcf⟩)
  have hceil0 : 0 ≤ ⌈Real.log (cfg.minimumTemperature / cfg.initialTemperature) /
      Real.log cfg.coolingFactor⌉ := Int.ceil_nonneg hxpos.le
  have hcast : ((⌈Real.log (cfg.minimumTemperature / cfg.initialTemperature) /
      Real.log cfg.coolingFactor⌉.toNat : ℕ) : ℝ) =
      ((⌈Real.log (cfg.minimumTemperature / cfg.initialTemperature) /
        Real.log cfg.coolingFactor⌉ : ℤ) : ℝ) := by
    exact_mod_cast congrArg (fun z : ℤ => (z : ℝ)) (Int.toNat_of_nonneg hceil0)
  have hmem : (⌈Real.log (cfg.minimumTemperature / cfg.initialTemperature) /
      Real.log cfg.coolingFactor⌉).toNat ∈
      {n : ℕ | tempAt cfg n ≤ cfg.minimumTemperature} := by
    simp only [Set.mem_setOf_eq]
    rw [tempAt_le_iff cfg h1 h2 h3 h4, hcast]
    exact Int.le_ceil _
  apply le_antisymm
  · exact Nat.sInf_le hmem
  · have hne : {n : ℕ | tempAt cfg n ≤ cfg.minimumTemperature}.Nonempty :=
      ⟨_, hmem⟩
    have hmemInf := Nat.sInf_mem hne
    simp only [Set.mem_setOf_eq] at hmemInf
    have hx_le := (tempAt_le_iff cfg h1 h2 h3 h4 _).mp hmemInf
    exact Int.toNat_le.mpr (Int.ceil_le.mpr (by exact_mod_cast hx_le))

/-- Whenever the configuration makes the loop terminate, the fuel-indexed
iteration count from the temperature of outer iteration `j` is exactly the
remaining number of iterations, for any sufficient fuel. -/
theorem whileIters_eq (cfg : SimulatedAnnealingOptions)
    (hterm : tempAt cfg (outerCount cfg) ≤ cfg.minimumTemperature) :
    ∀ fuel j, j ≤ outerCount cfg → outerCount cfg ≤ j + fuel →
      whileIters cfg fuel (tempAt cfg j) = outerCount cfg - j
  | 0, j, hj1, hj2 => by
      have hj : j = outerCount cfg := by omega
      subst hj
      show 0 = outerCount cfg - outerCount cfg
      omega
  | fuel + 1, j, hj1, hj2 => by
      rw [show whileIters cfg (fuel + 1) (tempAt cfg j) =
        (if tempAt cfg j > cfg.minimumTemperature then
          whileIters cfg fuel (tempAt cfg j * cfg.coolingFactor) + 1
        else 0) from rfl]
      by_cases hguard : tempAt cfg j > cfg.minimumTemperature
      · have hjlt : j < outerCount cfg := by
          rcases Nat.lt_or_ge j (outerCount cfg) with h | h
          · exact h
          · exfalso
            have hj : j = outerCount cfg := by omega
            rw [hj] at hguard
            exact absurd hterm (not_le.mpr hguard)
        rw [if_pos hguard,
          show tempAt cfg j * cfg.coolingFactor = tempAt cfg (j + 1) from rfl,
          whileIters_eq cfg hterm fuel (j + 1) (by omega) (by omega)]
        omega
      · have hj_ge : outerCount cfg ≤ j := by
          by_contra hcon
          push_neg at hcon
          exact hguard (lt_tempAt_of_lt_outerCount cfg j hcon)
        rw [if_neg hguard]
        omega

namespace TestFixture

/-- When the range is a single integer, every draw returns that integer. -/
theorem generateRandomNumber_self (lo : ℤ) (u : ℚ) (h0 : 0 ≤ u) (h1 : u < 1) :
    generateRandomNumber lo lo u = lo := by
  unfold generateRandomNumber
  rw [show (lo : ℚ) - (lo : ℚ) + 1 = 1 by ring, mul_one,
    Int.floor_eq_zero_iff.mpr (by exact ⟨h0, h1⟩), zero_add]

/-- On a single-integer range the redraw loop can only ever produce `r1`
again, so it never exits, whatever the fuel. -/
theorem genUniqueAux_self_none (lo : ℤ) (us : ℕ → ℚ)
    (hus : ∀ i, 0 ≤ us i ∧ us i < 1) :
    ∀ fuel i, genUniqueAux lo lo us lo fuel i = none
  | 0, _ => rfl
  | fuel + 1, i => by
      simp only [genUniqueAux,
        generateRandomNumber_self lo (us i) (hus i).1 (hus i).2, if_pos]
      exact genUniqueAux_self_none lo us hus fuel (i + 1)

/-- On a single-integer range `generateUniqueRandomNumbers` never returns. -/
theorem generateUniqueRandomNumbers_self_none (lo : ℤ) (us : ℕ → ℚ)
    (hus : ∀ i, 0 ≤ us i ∧ us i < 1) (fuel : ℕ) :
    generateUniqueRandomNumbers lo lo us fuel = none := by
  unfold generateUniqueRandomNumbers
  simp only [generateRandomNumber_self lo (us 0) (hus 0).1 (hus 0).2,
    genUniqueAux_self_none lo us hus]

/-- On any state with exactly one group, `generateNewState` never returns:
the two group indices must be distinct draws from the single-point range
`[0, 0]`. -/
theorem generateNewState_singleton_none (us : ℕ → ℚ)
    (hus : ∀ i, 0 ≤ us i ∧ us i < 1) (fuel : ℕ) (g : List ℚ) :
    generateNewState us fuel [g] = none := by
  simp only [generateNewState, List.length_singleton]
  rw [show ((1 : ℕ) : ℤ) - 1 = 0 by norm_num,
    generateUniqueRandomNumbers_self_none 0 us hus fuel]
  simp

end TestFixture

/-- C2, counterexample to the claim as stated: there is no execution and no
inner-loop iteration boundary at which `bestCost` exceeds `currentCost`.  At
every boundary `currentCost` is the recorded cost of one of the evaluated
states while `bestCost` is the minimum of all of them, so `bestCost ≤
currentCost` always holds there; the transient violation mentioned in the
spec can only occur mid-iteration, between the acceptance update and the
best-tracking update. -/
theorem c2_counterexample : ¬ boundaryBestGtCurrent := by
  rintro ⟨α, A, rand, k, hk⟩
  exact absurd (trace_bestCost_le_currentCost A rand k) (not_le.mpr hk)

/-- C2 (amended): `bestCost ≤ currentCost` holds at every inner-loop
iteration boundary (a transient `bestCost > currentCost` can occur only
mid-iteration, after the acceptance update and before the best-tracking
update), and `bestCost` monotonically non-increases over the run. -/
theorem c2_best_le_current_and_monotone {α : Type} (A : SimulatedAnnealingArgs α)
    (rand : ℕ → ℝ) (k l : ℕ) (hkl : k ≤ l) :
    (traceRS A rand k).bestCost ≤ (traceRS A rand k).currentCost ∧
      (traceRS A rand l).bestCost ≤ (traceRS A rand k).bestCost := by
  refine ⟨trace_bestCost_le_currentCost A rand k, ?_⟩
  rw [trace_bestCost_eq_observedMin, trace_bestCost_eq_observedMin]
  exact observedMin_antitone A rand hkl

/-- Witness for the amended C2 at a concrete execution. -/
theorem c2_witness :
    (0 : ℕ) ≤ 1 ∧
      ((traceRS demoArgs demoRand 0).bestCost ≤
          (traceRS demoArgs demoRand 0).currentCost ∧
        (traceRS demoArgs demoRand 1).bestCost ≤
          (traceRS demoArgs demoRand 0).bestCost) :=
  ⟨by decide, c2_best_le_current_and_monotone demoArgs demoRand 0 1 (by decide)⟩

/-- C8: across any run, the sequence of `bestCost` values recorded at the
inner-loop iteration boundaries is non-increasing. -/
theorem c8_bestCost_nonincreasing {α : Type} (A : SimulatedAnnealingArgs α)
    (rand : ℕ → ℝ) (k l : ℕ) (hkl : k ≤ l) :
    (traceRS A rand l).bestCost ≤ (traceRS A rand k).bestCost := by
  rw [trace_bestCost_eq_observedMin, trace_bestCost_eq_observedMin]
  exact observedMin_antitone A rand hkl

/-- Witness for C8 at a concrete execution. -/
theorem c8_witness :
    (0 : ℕ) ≤ 2 ∧
      (traceRS demoArgs demoRand 2).bestCost ≤
        (traceRS demoArgs demoRand 0).bestCost :=
  ⟨by decide, c8_bestCost_nonincreasing demoArgs demoRand 0 2 (by decide)⟩

/-- C9: when `0 < coolingFactor < 1` and `initialTemperature > 0`, the
sequence of `currentTemperature` values across the outer iterations of the
run (`tempAt`, the thread produced by `currentTemperature *= coolingFactor`)
is strictly decreasing. -/
theorem c9_temperature_strict_decrease (cfg : SimulatedAnnealingOptions)
    (h1 : 0 < cfg.coolingFactor) (h2 : cfg.coolingFactor < 1)
    (h3 : 0 < cfg.initialTemperature) :
    ∀ n, tempAt cfg (n + 1) < tempAt cfg n := fun n =>
  mul_lt_of_lt_one_right (tempAt_pos cfg h1 h3 n) h2

/-- Witness for C9 at a concrete configuration. -/
theorem c9_witness :
    (0 : ℝ) < demoArgs.options.coolingFactor ∧
      demoArgs.options.coolingFactor < 1 ∧
      (0 : ℝ) < demoArgs.options.initialTemperature ∧
      ∀ n, tempAt demoArgs.options (n + 1) < tempAt demoArgs.options n :=
  ⟨by norm_num [demoArgs], by norm_num [demoArgs], by norm_num [demoArgs],
    c9_temperature_strict_decrease demoArgs.options (by norm_num [demoArgs])
      (by norm_num [demoArgs]) (by norm_num [demoArgs])⟩

/-- Under the standard parameter hypotheses the cooling schedule does reach
the minimum temperature: the guard fails at iteration `outerCount`. -/
theorem outerCount_term (cfg : SimulatedAnnealingOptions)
    (_h1 : 0 < cfg.coolingFactor) (h2 : cfg.coolingFactor < 1)
    (h3 : 0 < cfg.minimumTemperature)
    (h4 : cfg.minimumTemperature < cfg.initialTemperature) :
    tempAt cfg (outerCount cfg) ≤ cfg.minimumTemperature := by
  have hT0 : 0 < cfg.initialTemperature := h3.trans h4
  obtain ⟨n, hn⟩ := exists_pow_lt_of_lt_one (div_pos h3 hT0) h2
  have hmem : n ∈ {m : ℕ | tempAt cfg m ≤ cfg.minimumTemperature} := by
    simp only [Set.mem_setOf_eq]
    rw [tempAt_eq_pow, mul_comm]
    exact ((lt_div_iff₀ hT0).mp hn).le
  have h := Nat.sInf_mem ⟨n, hmem⟩
  simp only [Set.mem_setOf_eq] at h
  exact h

/-- C4: for `0 < coolingFactor < 1` and `initialTemperature >
minimumTemperature > 0`, the outer loop of the run executes exactly
`⌈log(minimumTemperature/initialTemperature) / log(coolingFactor)⌉`
iterations — the count (`whileIters`, a function of the three temperature
parameters only, hence independent of the state and of the strategy results)
equals that ceiling for every sufficient fuel, the run performs exactly that
many outer bodies, and each outer body performs exactly
`swapsPerTemperature` inner iterations. -/
theorem c4_outer_iteration_count {α : Type} (A : SimulatedAnnealingArgs α)
    (rand : ℕ → ℝ) (h1 : 0 < A.options.coolingFactor)
    (h2 : A.options.coolingFactor < 1) (h3 : 0 < A.options.minimumTemperature)
    (h4 : A.options.minimumTemperature < A.options.initialTemperature) :
    outerCount A.options =
      (⌈Real.log (A.options.minimumTemperature / A.options.initialTemperature) /
        Real.log A.options.coolingFactor⌉).toNat ∧
    (∀ fuel, outerCount A.options ≤ fuel →
      whileIters A.options fuel A.options.initialTemperature =
        outerCount A.options) ∧
    runSimulatedAnnealing A rand =
      (outerIter A rand (outerCount A.options)).bestState ∧
    (∀ n, outerIter A rand n =
      traceRS A rand (n * A.options.swapsPerTemperature)) := by
  refine ⟨outerCount_eq_ceil A.options h1 h2 h3 h4, ?_, ?_,
    outerIter_traceRS A rand⟩
  · intro fuel hfuel
    have h := whileIters_eq A.options (outerCount_term A.options h1 h2 h3 h4)
      fuel 0 (Nat.zero_le _) (by omega)
    rw [show tempAt A.options 0 = A.options.initialTemperature from rfl,
      Nat.sub_zero] at h
    exact h
  · rw [runSimulatedAnnealing_eq_trace, outerIter_traceRS]

/-- Witness for C4 at a concrete configuration (`coolingFactor = 1/2`,
`initialTemperature = 1`, `minimumTemperature = 1/4`, two swaps). -/
theorem c4_witness :
    (0 : ℝ) < demoArgs.options.coolingFactor ∧
      demoArgs.options.coolingFactor < 1 ∧
      (0 : ℝ) < demoArgs.options.minimumTemperature ∧
      demoArgs.options.minimumTemperature < demoArgs.options.initialTemperature ∧
      (outerCount demoArgs.options =
        (⌈Real.log (demoArgs.options.minimumTemperature /
            demoArgs.options.initialTemperature) /
          Real.log demoArgs.options.coolingFactor⌉).toNat ∧
      (∀ fuel, outerCount demoArgs.options ≤ fuel →
        whileIters demoArgs.options fuel demoArgs.options.initialTemperature =
          outerCount demoArgs.options) ∧
      runSimulatedAnnealing demoArgs demoRand =
        (outerIter demoArgs demoRand (outerCount demoArgs.options)).bestState ∧
      (∀ n, outerIter demoArgs demoRand n =
        traceRS demoArgs demoRand (n * demoArgs.options.swapsPerTemperature))) :=
  ⟨by norm_num [demoArgs], by norm_num [demoArgs], by norm_num [demoArgs],
    by norm_num [demoArgs],
    c4_outer_iteration_count demoArgs demoRand (by norm_num [demoArgs])
      (by norm_num [demoArgs]) (by norm_num [demoArgs]) (by norm_num [demoArgs])⟩

/-- C5: at every iteration boundary, `bestState` is a state whose cost equals
the minimum of `getCost initialState` and the costs of all neighbours
generated so far (`observedMin`), regardless of acceptance — and the returned
state achieves the lowest cost observed among all evaluated states.  The copy
contract hypothesis reflects the `copyState` documentation of the source. -/
theorem c5_best_tracks_min {α : Type} (A : SimulatedAnnealingArgs α)
    (rand : ℕ → ℝ) (hcopy : A.copyState A.initialState = A.initialState) :
    (∀ k, A.getCost ((traceRS A rand k).bestState) = observedMin A rand k ∧
      (traceRS A rand k).bestCost = observedMin A rand k) ∧
    A.getCost (runSimulatedAnnealing A rand) =
      observedMin A rand (outerCount A.options * A.options.swapsPerTemperature) := by
  constructor
  · intro k
    refine ⟨?_, trace_bestCost_eq_observedMin A rand k⟩
    rw [trace_getCost_bestState A rand hcopy k, trace_bestCost_eq_observedMin]
  · rw [runSimulatedAnnealing_eq_trace, trace_getCost_bestState A rand hcopy,
      trace_bestCost_eq_observedMin]

/-- Witness for C5 at a concrete execution. -/
theorem c5_witness :
    demoArgs.copyState demoArgs.initialState = demoArgs.initialState ∧
      ((∀ k, demoArgs.getCost ((traceRS demoArgs demoRand k).bestState) =
          observedMin demoArgs demoRand k ∧
        (traceRS demoArgs demoRand k).bestCost = observedMin demoArgs demoRand k) ∧
      demoArgs.getCost (runSimulatedAnnealing demoArgs demoRand) =
        observedMin demoArgs demoRand
          (outerCount demoArgs.options * demoArgs.options.swapsPerTemperature)) :=
  ⟨rfl, c5_best_tracks_min demoArgs demoRand rfl⟩

/-- C6: for every valid input, `getCost (run ...) ≤ getCost initialState`.
The copy contract hypothesis reflects the `copyState` documentation of the
source (without it the returned entry copy need not cost the same as the
initial state). -/
theorem c6_cost_non_regression {α : Type} (A : SimulatedAnnealingArgs α)
    (rand : ℕ → ℝ) (hcopy : A.copyState A.initialState = A.initialState) :
    A.getCost (runSimulatedAnnealing A rand) ≤ A.getCost A.initialState := by
  rw [runSimulatedAnnealing_eq_trace, trace_getCost_bestState A rand hcopy,
    trace_bestCost_eq_observedMin]
  exact observedMin_antitone A rand (Nat.zero_le _)

/-- Witness for C6 at a concrete execution. -/
theorem c6_witness :
    demoArgs.copyState demoArgs.initialState = demoArgs.initialState ∧
      demoArgs.getCost (runSimulatedAnnealing demoArgs demoRand) ≤
        demoArgs.getCost demoArgs.initialState :=
  ⟨rfl, c6_cost_non_regression demoArgs demoRand rfl⟩

/-- C7: when the generated neighbour differs from the current state, it
becomes the new current state (both `currentState` and `currentCost` updated)
exactly when `delta < 0` or `exp(-delta / temp) > u`, with
`delta = getCost neighbour - currentCost` and `u` the uniform draw of the
iteration; in particular every strictly improving move is accepted. -/
theorem c7_acceptance_rule {α : Type} (getCost : α → ℝ) (temp u : ℝ)
    (gk : α → α) (s : RunState α)
    (hne : gk s.currentState ≠ s.currentState) :
    (((innerStep getCost temp gk u s).currentState = gk s.currentState ∧
      (innerStep getCost temp gk u s).currentCost =
        getCost (gk s.currentState)) ↔
      (getCost (gk s.currentState) - s.currentCost < 0 ∨
        Real.exp ((-(getCost (gk s.currentState) - s.currentCost)) / temp) > u)) ∧
    (getCost (gk s.currentState) < s.currentCost →
      (innerStep getCost temp gk u s).currentState = gk s.currentState ∧
      (innerStep getCost temp gk u s).currentCost =
        getCost (gk s.currentState)) := by
  constructor
  · constructor
    · intro h
      by_cases ha : accepts (getCost (gk s.currentState)) s.currentCost temp u
      · exact ha
      · exact absurd ((innerStep_current_of_reject _ _ _ _ _ ha).1 ▸ h.1).symm hne
    · intro ha
      exact innerStep_current_of_accept _ _ _ _ _ ha
  · intro himp
    exact innerStep_current_of_accept _ _ _ _ _ (Or.inl (sub_neg.mpr himp))

/-- Witness for C7 at a concrete inner step (flipping the boolean state,
which improves the cost from `0` to `-1`). -/
theorem c7_witness :
    (fun b => !b) demoRunState.currentState ≠ demoRunState.currentState ∧
    ((((innerStep demoCost 1 (fun b => !b) (1 / 2) demoRunState).currentState =
        (fun b => !b) demoRunState.currentState ∧
      (innerStep demoCost 1 (fun b => !b) (1 / 2) demoRunState).currentCost =
        demoCost ((fun b => !b) demoRunState.currentState)) ↔
      (demoCost ((fun b => !b) demoRunState.currentState) -
          demoRunState.currentCost < 0 ∨
        Real.exp ((-(demoCost ((fun b => !b) demoRunState.currentState) -
          demoRunState.currentCost)) / 1) > 1 / 2)) ∧
    (demoCost ((fun b => !b) demoRunState.currentState) <
        demoRunState.currentCost →
      (innerStep demoCost 1 (fun b => !b) (1 / 2) demoRunState).currentState =
        (fun b => !b) demoRunState.currentState ∧
      (innerStep demoCost 1 (fun b => !b) (1 / 2) demoRunState).currentCost =
        demoCost ((fun b => !b) demoRunState.currentState))) :=
  ⟨by simp [demoRunState],
    c7_acceptance_rule demoCost 1 (1 / 2) (fun b => !b) demoRunState
      (by simp [demoRunState])⟩

/-- C10: the run returns the earliest evaluated state achieving the minimal
observed cost: there is an index `j` into the evaluated sequence (entry copy
of the initial state followed by the generated neighbours) such that the run
returns `evalSeq j`, its recorded cost is a minimum over all recorded costs
of the run, every earlier evaluated state has a strictly larger recorded
cost (so a tie never replaces the incumbent), and if no generated neighbour
is strictly cheaper than the initial state the run returns the entry copy of
the initial state. -/
theorem c10_ties_keep_earliest {α : Type} (A : SimulatedAnnealingArgs α)
    (rand : ℕ → ℝ) :
    ∃ j, j ≤ outerCount A.options * A.options.swapsPerTemperature ∧
      runSimulatedAnnealing A rand = evalSeq A rand j ∧
      (∀ i, i ≤ outerCount A.options * A.options.swapsPerTemperature →
        costSeq A rand j ≤ costSeq A rand i) ∧
      (∀ i, i < j → costSeq A rand j < costSeq A rand i) ∧
      ((∀ i, 1 ≤ i → i ≤ outerCount A.options * A.options.swapsPerTemperature →
          A.getCost A.initialState ≤ costSeq A rand i) →
        runSimulatedAnnealing A rand = A.copyState A.initialState) := by
  obtain ⟨j, hj, hbs, hbc, hmin⟩ :=
    trace_best_earliest A rand (outerCount A.options * A.options.swapsPerTemperature)
  have hrun : runSimulatedAnnealing A rand = evalSeq A rand j := by
    rw [runSimulatedAnnealing_eq_trace]; exact hbs
  refine ⟨j, hj, hrun, ?_, hmin, ?_⟩
  · intro i hi
    rw [← hbc, trace_bestCost_eq_observedMin]
    exact observedMin_le_costSeq A rand _ i hi
  · intro hall
    rcases Nat.eq_zero_or_pos j with hj0 | hjpos
    · subst hj0; exact hrun
    · exact absurd (hmin 0 hjpos) (not_lt.mpr (hall j hjpos hj))

/-- Witness for C10 at a concrete execution. -/
theorem c10_witness :
    ∃ j, j ≤ outerCount demoArgs.options * demoArgs.options.swapsPerTemperature ∧
      runSimulatedAnnealing demoArgs demoRand = evalSeq demoArgs demoRand j ∧
      (∀ i, i ≤ outerCount demoArgs.options *
          demoArgs.options.swapsPerTemperature →
        costSeq demoArgs demoRand j ≤ costSeq demoArgs demoRand i) ∧
      (∀ i, i < j → costSeq demoArgs demoRand j < costSeq demoArgs demoRand i) ∧
      ((∀ i, 1 ≤ i → i ≤ outerCount demoArgs.options *
            demoArgs.options.swapsPerTemperature →
          demoArgs.getCost demoArgs.initialState ≤ costSeq demoArgs demoRand i) →
        runSimulatedAnnealing demoArgs demoRand =
          demoArgs.copyState demoArgs.initialState) :=
  c10_ties_keep_earliest demoArgs demoRand

/-- C3, counterexample to the claim as stated: on the degenerate single-group
state `[[1]]` (one group, any size), `generateNewState` of the test file
never terminates — `generateUniqueRandomNumbers(0, 0)` can only ever redraw
`0`, so its `while (randomGroupOne === randomGroupTwo)` loop never exits.
The draws are the legitimate `Math.random()` trajectory that always returns
`0`; no amount of fuel makes the modelled loop produce a result, and since
`runSimulatedAnnealing` invokes `generateNewState` in its first inner
iteration, the combined run does not terminate either. -/
theorem c3_counterexample : TestFixture.singleGroupHangs := fun fuel =>
  TestFixture.generateNewState_singleton_none (fun _ => 0)
    (fun _ => ⟨le_rfl, by norm_num⟩) fuel [1]

/-- C3 (amended): an empty collection of groups is handled gracefully — the
test file's `generateNewState` returns it unchanged without drawing indices,
and the engine run with that neighbour strategy terminates and returns the
(empty) initial state unchanged — but a state with exactly one group (of any
size, in particular size 0 or 1) makes the index-drawing loop of
`generateUniqueRandomNumbers` run forever (see the counterexample).  The
streams `uss`/`fuels` let each inner step consume its own draws and fuel. -/
theorem c3_empty_state_graceful :
    ∀ (uss : ℕ → ℕ → ℚ) (fuels : ℕ → ℕ) (getCost : List (List ℚ) → ℝ)
      (rand : ℕ → ℝ) (cfg : SimulatedAnnealingOptions),
      TestFixture.generateNewState (uss 0) (fuels 0) [] = some [] ∧
      runSimulatedAnnealing
        { copyState := TestFixture.copyState
          generateNewState := fun k s =>
            (TestFixture.generateNewState (uss k) (fuels k) s).getD s
          getCost := getCost
          initialState := []
          options := cfg } rand = [] := by
  intro uss fuels getCost rand cfg
  refine ⟨rfl, ?_⟩
  set A : SimulatedAnnealingArgs (List (List ℚ)) :=
    { copyState := TestFixture.copyState
      generateNewState := fun k s =>
        (TestFixture.generateNewState (uss k) (fuels k) s).getD s
      getCost := getCost
      initialState := []
      options := cfg } with hA
  have hgen : ∀ k, A.generateNewState k [] = [] := fun k => rfl
  have hinv : ∀ k, (traceRS A rand k).currentState = [] ∧
      (traceRS A rand k).bestState = [] := by
    intro k
    induction k with
    | zero => exact ⟨rfl, rfl⟩
    | succ k ih =>
        obtain ⟨hc, hb⟩ := ih
        rw [traceRS_succ]
        have hnb : A.generateNewState k ((traceRS A rand k).currentState) = [] := by
          rw [hc]; exact hgen k
        constructor
        · by_cases ha : accepts
              (A.getCost (A.generateNewState k ((traceRS A rand k).currentState)))
              ((traceRS A rand k).currentCost)
              (tempAt A.options (k / A.options.swapsPerTemperature)) (rand k)
          · rw [(innerStep_current_of_accept _ _ _ _ _ ha).1, hnb]
          · rw [(innerStep_current_of_reject _ _ _ _ _ ha).1, hc]
        · by_cases hlt : A.getCost
              (A.generateNewState k ((traceRS A rand k).currentState)) <
              (traceRS A rand k).bestCost
          · rw [innerStep_bestState_of_lt _ _ _ _ _ hlt, hnb]
          · rw [innerStep_bestState_of_ge _ _ _ _ _ hlt, hb]
  rw [runSimulatedAnnealing_eq_trace]
  exact (hinv _).2
